import Mathlib

/-
  Verification of the generator-based logic-programming core in
  `unify/core.py` (Var, unify, unify_all, AND, OR, ONCE, run, once,
  Solution) and `pyunify/predicates.py` (not_unifiable).

  Shallow embedding.  Python generators are modelled by a fuel-indexed
  abstract machine: starting a generator from a store either exhausts
  (`done`), raises (`exn`), or yields a success together with a
  defunctionalized continuation (`Kont`) describing what the suspended
  generator does when the consumer requests the next element.

  Modelling decisions, each traceable to the source:

  * A `Var`'s mutable `_binding` slot (core.py line 36) is a slot in a
    global store `Store := Nat → Option Term`, indexed by `Var.id`;
    `none` is Python `None`, i.e. unbound.

  * Python `is` (core.py line 92) is observable in our term model only
    for Vars (identity of ids).  For non-Var values, whenever `is` holds
    Python `==` also holds (no NaN terms are modelled), and both the
    identity branch and the equality branch of `unify` yield once
    without binding, so routing such cases through the `==` branch is
    observationally identical.

  * Closing a suspended generator raises GeneratorExit at the `yield`;
    none of the modelled functions has a `try`/`finally`, so the code
    after `yield` (in particular the binding-restore lines, core.py
    102-103 and 110-111) is skipped and the store is left unchanged.
    Hence a discarded continuation is simply dropped.  This matters for
    `ONCE` (core.py 217-226, the `return` after the single yield closes
    the inner generator), `not_unifiable` (predicates.py 205, the
    `return` out of the probe loop closes the probe), and `once`
    (core.py 343, the explicit `gen.close()`).

  * Goals are the nullary-callable form of the source's goal protocol
    (a constructor is forced each time the goal is started); `raiseExc`
    models a user goal whose forcing or first `next` raises.

  * Floats are modelled as rationals (Python compares int/float/bool
    numerically and exactly; inf/NaN are not modelled).
-/

namespace PyUnify

/-- Scalar host values that can appear as atoms: ints, bools, floats
    (modelled as rationals) and strings. -/
inductive Scalar : Type where
  | int : Int → Scalar
  | bool : Bool → Scalar
  | float : Rat → Scalar
  | str : String → Scalar
deriving DecidableEq, Repr

/-- The numeric value of a scalar under Python's cross-type numeric
    comparison (`bool` counts as 0/1), `none` for strings. -/
def Scalar.num : Scalar → Option Rat
  | .int i => some (i : Rat)
  | .bool b => some (if b then 1 else 0)
  | .float q => some q
  | .str _ => none

/-- Python `==` on scalars: numeric values compare numerically
    (`0 == False`, `1 == 1.0`), strings compare by value, strings never
    equal numbers. -/
def scalarEq (a b : Scalar) : Bool :=
  match a.num, b.num with
  | some x, some y => x = y
  | _, _ =>
    match a, b with
    | .str s, .str t => s = t
    | _, _ => false

/-- Terms: scalars, logic variables (by id), lists, tuples and dicts
    (records), mirroring the cases dispatched in `unify`
    (core.py 72-145). -/
inductive Term : Type where
  | scalar : Scalar → Term
  | var : Nat → Term
  | list : List Term → Term
  | tuple : List Term → Term
  | dict : List (Scalar × Term) → Term

/-- Python dict key lookup `b[k]` / `k in b`: keys compare by `==`. -/
def dictLookup (d : List (Scalar × Term)) (k : Scalar) : Option Term :=
  match d with
  | [] => none
  | (k', v) :: rest => if scalarEq k k' then some v else dictLookup rest k

mutual
/-- Python `==` on terms (used by `unify` case 3, core.py 115).
    Vars compare by object identity (class `Var` defines no `__eq__`);
    lists and tuples compare elementwise, dicts by keys and values. -/
def pyEq : Term → Term → Bool
  | .scalar a, .scalar b => scalarEq a b
  | .var i, .var j => i = j
  | .list as_, .list bs => pyEqList as_ bs
  | .tuple as_, .tuple bs => pyEqList as_ bs
  | .dict as_, .dict bs => as_.length = bs.length && pyEqPairs as_ bs
  | _, _ => false

def pyEqList : List Term → List Term → Bool
  | [], [] => true
  | a :: as_, b :: bs => pyEq a b && pyEqList as_ bs
  | _, _ => false

def pyEqPairs : List (Scalar × Term) → List (Scalar × Term) → Bool
  | [], _ => true
  | (k, v) :: rest, bs =>
    (match dictLookup bs k with
     | some w => pyEq v w
     | none => false) && pyEqPairs rest bs
end

/-- Python `is` between two dereferenced terms (core.py 92).  Only Var
    identity is distinguishable in the value model (see header note). -/
def isIdent : Term → Term → Bool
  | .var i, .var j => i = j
  | _, _ => false

/-- The global binding store: `Var.id ↦ _binding` (`none` = unbound). -/
def Store : Type := Nat → Option Term

def emptyStore : Store := fun _ => none

/-- Mutating one Var's `_binding` slot. -/
def upd (s : Store) (v : Nat) (t : Option Term) : Store :=
  fun w => if w = v then t else s w

/-- `Var.deref` (core.py 47-60): follow the chain of Var bindings;
    an unbound Var dereferences to itself.  Fuel-bounded because a
    cyclic store (no occurs check) loops; `none` = out of fuel. -/
def derefV (fuel : Nat) (s : Store) (v : Nat) : Option Term :=
  match fuel with
  | 0 => none
  | fuel + 1 =>
    match s v with
    | none => some (.var v)
    | some t =>
      match t with
      | .var w => derefV fuel s w
      | _ => some t

/-- `a.deref() if isinstance(a, Var) else a` (core.py 88-89). -/
def derefT (fuel : Nat) (s : Store) (t : Term) : Option Term :=
  match t with
  | .var v => derefV fuel s v
  | _ => some t

/-- Case 6 of `unify` (core.py 134-143): every key of the pattern `da`
    must be present in the subject `db`; collect the value pairs. -/
def dictPairs (da db : List (Scalar × Term)) : Option (List (Term × Term)) :=
  match da with
  | [] => some []
  | (k, v) :: rest =>
    match dictLookup db k with
    | none => none
    | some w => (dictPairs rest db).map (fun ps => (v, w) :: ps)

/-- Goal syntax: the combinators of core.py plus `not_unifiable` from
    predicates.py and `raiseExc` (a user goal that raises). -/
inductive Goal : Type where
  | unify : Term → Term → Goal
  | unify_all : List (Term × Term) → Goal
  | AND : List Goal → Goal
  | OR : List Goal → Goal
  | ONCE : Goal → Goal
  | not_unifiable : Term → Term → Goal
  | succeed : Goal
  | fail : Goal
  | raiseExc : Goal

/-- Defunctionalized continuations of suspended generators:
    * `kdone` — resuming runs straight to `return` (e.g. after the
      identity / equality yields of `unify`, or `ONCE` after its yield);
    * `krestore v old` — the suspended binding branch of `unify`
      (core.py 97-112): resuming restores `v`'s slot to `old` unless
      commit mode is on, then returns;
    * `kseqU ktail rest khead` — `unify_all` (core.py 148-166) suspended
      inside `yield from unify_all(rest)` within `for _ in unify(a,b)`;
    * `kseqA` — the same shape for `AND` (core.py 173-197);
    * `korK k rem` — `OR` (core.py 200-214) suspended in branch `k` with
      branches `rem` still to try. -/
inductive Kont : Type where
  | kdone : Kont
  | krestore (v : Nat) (old : Option Term) : Kont
  | kseqU (ktail : Kont) (rest : List (Term × Term)) (khead : Kont) : Kont
  | kseqA (ktail : Kont) (rest : List Goal) (khead : Kont) : Kont
  | korK (k : Kont) (rem : List Goal) : Kont

/-- Result of advancing a generator: out of fuel, an exception
    propagating, exhaustion (`StopIteration`), or a yielded success with
    the store at the yield and the suspended continuation. -/
inductive GRes : Type where
  | oof : GRes
  | exn (s : Store) : GRes
  | done (s : Store) : GRes
  | yld (s : Store) (k : Kont) : GRes

mutual
/-- First `next()` of `unify(a, b)` (core.py 72-145): dereference both
    sides (lines 88-89), then dispatch on the dereferenced values.  The
    commit flag `nb` is read at the start of the body (line 85) and
    decides whether the binding branches restore on resumption. -/
def unifyStart (nb : Bool) (fuel : Nat) (a b : Term) (s : Store) : GRes :=
  match fuel with
  | 0 => .oof
  | fuel + 1 =>
    match derefT fuel s a, derefT fuel s b with
    | none, _ => .oof
    | some _, none => .oof
    | some a', some b' => unifyDisp nb fuel a' b' s

/-- Cases 1-3 of `unify` on the dereferenced values: identity (line
    92), unbound-Var binding (lines 97-112, suspending with a restore
    continuation), Python `==` (line 115); otherwise the structural
    cases. -/
def unifyDisp (nb : Bool) (fuel : Nat) (a' b' : Term) (s : Store) : GRes :=
  match fuel with
  | 0 => .oof
  | fuel + 1 =>
    if isIdent a' b' then .yld s .kdone
    else
      match a' with
      | .var v => .yld (upd s v (some b')) (.krestore v (s v))
      | _ =>
        match b' with
        | .var w => .yld (upd s w (some a')) (.krestore w (s w))
        | _ =>
          if pyEq a' b' then .yld s .kdone
          else unifyStructural nb fuel a' b' s

/-- Cases 4-6 of `unify` (core.py 119-145): lists, tuples and dicts
    delegate to `unify_all`; anything else fails with no yield. -/
def unifyStructural (nb : Bool) (fuel : Nat) (a' b' : Term) (s : Store) : GRes :=
  match fuel with
  | 0 => .oof
  | fuel + 1 =>
    match a', b' with
    | .list as_, .list bs =>
      if as_.length = bs.length then unifyAllStart nb fuel (as_.zip bs) s
      else .done s
    | .tuple as_, .tuple bs =>
      if as_.length = bs.length then unifyAllStart nb fuel (as_.zip bs) s
      else .done s
    | .dict da, .dict db =>
      match dictPairs da db with
      | some pairs => unifyAllStart nb fuel pairs s
      | none => .done s
    | _, _ => .done s

/-- First `next()` of `unify_all(pairs)` (core.py 148-166). -/
def unifyAllStart (nb : Bool) (fuel : Nat) (pairs : List (Term × Term)) (s : Store) : GRes :=
  match fuel with
  | 0 => .oof
  | fuel + 1 =>
    match pairs with
    | [] => .yld s .kdone
    | (a, b) :: rest => loopU nb fuel rest (unifyStart nb fuel a b s)

/-- The `for _ in unify(a, b): yield from unify_all(rest)` loop of
    `unify_all`, driven by the head generator's latest result. -/
def loopU (nb : Bool) (fuel : Nat) (rest : List (Term × Term)) (r : GRes) : GRes :=
  match fuel with
  | 0 => .oof
  | fuel + 1 =>
    match r with
    | .oof => .oof
    | .exn s => .exn s
    | .done s => .done s
    | .yld s khead =>
      match unifyAllStart nb fuel rest s with
      | .oof => .oof
      | .exn s' => .exn s'
      | .yld s' ktail => .yld s' (.kseqU ktail rest khead)
      | .done s' => loopU nb fuel rest (resumeK nb fuel khead s')

/-- First `next()` of a goal.  `ONCE` (core.py 217-226) forwards its
    inner generator's first success and then returns; the discarded
    inner continuation is closed, which does not run its restore code.
    `not_unifiable` (predicates.py 198-208) probes `unify(a, b)`; if the
    probe yields, the `return` closes it (again skipping the restore)
    and the goal exhausts with the probe's bindings still in place. -/
def goalStart (nb : Bool) (fuel : Nat) (g : Goal) (s : Store) : GRes :=
  match fuel with
  | 0 => .oof
  | fuel + 1 =>
    match g with
    | .unify a b => unifyStart nb fuel a b s
    | .unify_all ps => unifyAllStart nb fuel ps s
    | .AND gs => andStart nb fuel gs s
    | .OR gs => orStart nb fuel gs s
    | .ONCE g =>
      match goalStart nb fuel g s with
      | .oof => .oof
      | .exn s' => .exn s'
      | .done s' => .done s'
      | .yld s' _ => .yld s' .kdone
    | .not_unifiable a b =>
      match unifyStart nb fuel a b s with
      | .oof => .oof
      | .exn s' => .exn s'
      | .yld s' _ => .done s'
      | .done s' => .yld s' .kdone
    | .succeed => .yld s .kdone
    | .fail => .done s
    | .raiseExc => .exn s

/-- First `next()` of `AND(*goals)` (core.py 173-197). -/
def andStart (nb : Bool) (fuel : Nat) (gs : List Goal) (s : Store) : GRes :=
  match fuel with
  | 0 => .oof
  | fuel + 1 =>
    match gs with
    | [] => .yld s .kdone
    | g :: rest => loopA nb fuel rest (goalStart nb fuel g s)

/-- The `for _ in gen: yield from AND(*rest)` loop of `AND`. -/
def loopA (nb : Bool) (fuel : Nat) (rest : List Goal) (r : GRes) : GRes :=
  match fuel with
  | 0 => .oof
  | fuel + 1 =>
    match r with
    | .oof => .oof
    | .exn s => .exn s
    | .done s => .done s
    | .yld s khead =>
      match andStart nb fuel rest s with
      | .oof => .oof
      | .exn s' => .exn s'
      | .yld s' ktail => .yld s' (.kseqA ktail rest khead)
      | .done s' => loopA nb fuel rest (resumeK nb fuel khead s')

/-- First `next()` of `OR(*goals)` (core.py 200-214). -/
def orStart (nb : Bool) (fuel : Nat) (gs : List Goal) (s : Store) : GRes :=
  match fuel with
  | 0 => .oof
  | fuel + 1 =>
    match gs with
    | [] => .done s
    | g :: rest => orStep nb fuel rest (goalStart nb fuel g s)

/-- Forward the current OR branch's result; on exhaustion try the
    remaining branches. -/
def orStep (nb : Bool) (fuel : Nat) (rem : List Goal) (r : GRes) : GRes :=
  match fuel with
  | 0 => .oof
  | fuel + 1 =>
    match r with
    | .oof => .oof
    | .exn s => .exn s
    | .done s => orStart nb fuel rem s
    | .yld s k => .yld s (.korK k rem)

/-- Resume (`next()`) a suspended generator at the current store. -/
def resumeK (nb : Bool) (fuel : Nat) (k : Kont) (s : Store) : GRes :=
  match fuel with
  | 0 => .oof
  | fuel + 1 =>
    match k with
    | .kdone => .done s
    | .krestore v old => .done (if nb then s else upd s v old)
    | .kseqU ktail rest khead =>
      match resumeK nb fuel ktail s with
      | .oof => .oof
      | .exn s' => .exn s'
      | .yld s' k' => .yld s' (.kseqU k' rest khead)
      | .done s' => loopU nb fuel rest (resumeK nb fuel khead s')
    | .kseqA ktail rest khead =>
      match resumeK nb fuel ktail s with
      | .oof => .oof
      | .exn s' => .exn s'
      | .yld s' k' => .yld s' (.kseqA k' rest khead)
      | .done s' => loopA nb fuel rest (resumeK nb fuel khead s')
    | .korK k' rem =>
      match resumeK nb fuel k' s with
      | .oof => .oof
      | .exn s' => .exn s'
      | .done s' => orStart nb fuel rem s'
      | .yld s' k'' => .yld s' (.korK k'' rem)
end

/-- Consume a lazy sequence to exhaustion by repeatedly requesting the
    next element (the consumer touches nothing between successes):
    returns the number of successes and the final store. -/
def drain (nb : Bool) (fuel : Nat) (r : GRes) : Option (Nat × Store) :=
  match fuel with
  | 0 => none
  | fuel + 1 =>
    match r with
    | .oof => none
    | .exn _ => none
    | .done s => some (0, s)
    | .yld s k =>
      match drain nb fuel (resumeK nb fuel k s) with
      | some (n, s') => some (n + 1, s')
      | none => none

/-- A `Solution` (core.py 233-266): the snapshot maps each requested
    display name to the id of the fresh Var created for it by `run`. -/
structure Solution : Type where
  vars : List (String × Nat)

/-- The snapshot step of `run` (core.py 288-298): for each requested
    Var, create a fresh Var (ids allocated from the global counter
    `next`) bound to the current dereference of the requested Var.
    The fresh snapshot Vars never occur in goal terms, so their binding
    slots are kept in a separate association list (the returned heap);
    core execution only reaches variables mentioned by goal terms, so
    this split is observationally equivalent to one global store. -/
def snapshot (fuel : Nat) (names : List (String × Nat)) (s : Store) (next : Nat) :
    Option (Solution × List (Nat × Term) × Nat) :=
  match names with
  | [] => some (⟨[]⟩, [], next)
  | (nm, v) :: rest =>
    match derefV fuel s v with
    | none => none
    | some t =>
      match snapshot fuel rest s (next + 1) with
      | none => none
      | some (sol, heap, next') =>
        some (⟨(nm, next) :: sol.vars⟩, (next, t) :: heap, next')

/-- `run(goal, **vars)` consumed to exhaustion (core.py 269-298):
    after every success of the goal a Solution is snapshotted, then the
    next success is requested.  Returns the solutions, the accumulated
    snapshot-Var heap, the final store and the final Var counter. -/
def runDrain (nb : Bool) (names : List (String × Nat)) (fuel : Nat) (r : GRes)
    (next : Nat) : Option (List Solution × List (Nat × Term) × Store × Nat) :=
  match fuel with
  | 0 => none
  | fuel + 1 =>
    match r with
    | .oof => none
    | .exn _ => none
    | .done s => some ([], [], s, next)
    | .yld s k =>
      match snapshot (fuel + 1) names s next with
      | none => none
      | some (sol, heap, next') =>
        match runDrain nb names fuel (resumeK nb fuel k s) next' with
        | none => none
        | some (sols, heap', s', next'') =>
          some (sol :: sols, heap ++ heap', s', next'')

/-- Binding slot of a snapshot Var in the snapshot heap. -/
def heapLookup (h : List (Nat × Term)) (w : Nat) : Option Term :=
  match h with
  | [] => none
  | (w', t) :: rest => if w = w' then some t else heapLookup rest w

/-- Name lookup in a list of (name, Var id) entries. -/
def varsLookup (entries : List (String × Nat)) (name : String) : Option Nat :=
  match entries with
  | [] => none
  | (nm, v) :: rest => if name = nm then some v else varsLookup rest name

/-- Name lookup in a Solution's `vars` dict. -/
def solLookup (sol : Solution) (name : String) : Option Nat :=
  varsLookup sol.vars name

/-- `name.startswith('_')` (core.py 243). -/
def startsUnderscore (name : String) : Bool :=
  match name.data with
  | [] => false
  | c :: _ => c = '_'

/-- Result of a Python attribute access on a Solution: an
    AttributeError, the `vars` field itself (not a Term), the bound
    `Solution.get` method (not a Term), or a value. -/
inductive PyAttr : Type where
  | attrError : PyAttr
  | varsField : PyAttr
  | getMethod : PyAttr
  | val : Term → PyAttr

/-- The `value` read of a snapshot Var holding captured binding `t`
    (`Var.deref` applied to the snapshot Var): a captured Var is
    dereferenced in the current store, any other captured term is
    returned as is. -/
def snapshotValue (fuel : Nat) (st : Store) (t : Term) : Option PyAttr :=
  match t with
  | .var x => (derefV fuel st x).map .val
  | _ => some (.val t)

/-- Attribute access `solution.<name>` (core.py 242-250).  Python's
    normal (instance/class) lookup precedes `__getattr__`: the name
    `vars` resolves to the dataclass field stored on the instance, and
    `get` — the only non-underscore attribute of class `Solution` — to
    the bound `Solution.get` method, so `__getattr__` never runs for
    those two names.  Names starting with `_` reach `__getattr__`'s
    guard (line 243) and fall back to `object.__getattribute__`, which
    raises AttributeError for names that are not real attributes (the
    remaining class attributes are all dunders, i.e. underscore-
    prefixed, and the claims only concern non-attribute names there).
    Otherwise `__getattr__` (lines 246-250) runs: if the name is among
    the snapshot vars, return `var.value if var.is_bound() else var`,
    where the snapshot Var's `value` dereferences its captured binding
    in the current store; else raise AttributeError. -/
def solGetattr (fuel : Nat) (heap : List (Nat × Term)) (st : Store) (sol : Solution)
    (name : String) : Option PyAttr :=
  if name = "vars" then some .varsField
  else if name = "get" then some .getMethod
  else if startsUnderscore name then some .attrError
  else
    match solLookup sol name with
    | some w =>
      match heapLookup heap w with
      | some t => snapshotValue fuel st t
      | none => some (.val (.var w))
    | none => some .attrError

/-- `Solution.get(name, default)` (core.py 261-266): attribute access
    with AttributeError turned into the supplied default. -/
def solGet (fuel : Nat) (heap : List (Nat × Term)) (st : Store) (sol : Solution)
    (name : String) (default : Term) : Option PyAttr :=
  match solGetattr fuel heap st sol name with
  | none => none
  | some .attrError => some (.val default)
  | some r => some r

/-- `once(goal)` (core.py 311-349).  `prev` is the thread-local
    `no_backtrack` flag before the call; the body saves it, sets the
    flag, forces the goal and requests its first success with the flag
    set, and the `finally` restores `prev` on every exit path.  On a
    success the generator is closed: no `try`/`finally` protects the
    restore code of any modelled generator, so the store stays at the
    success state.  Result: `none` = out of fuel; otherwise the returned
    value (`none` when an exception propagated to the caller), the final
    store, and the final flag. -/
def once (prev : Bool) (fuel : Nat) (g : Goal) (s : Store) :
    Option ((Option Bool) × Store × Bool) :=
  match goalStart true fuel g s with
  | .oof => none
  | .yld s' _ => some (some true, s', prev)
  | .done s' => some (some false, s', prev)
  | .exn s' => some (none, s', prev)

/-! Theorems about the claims. -/

/-- C4: the claim states that scalar unification distinguishes `0` from
    `False` and `1` from `1.0`, yielding no success.  Evaluating the
    code at those inputs: `unify(0, False)` and `unify(1, 1.0)` each
    yield exactly one success, because case 3 of `unify` uses Python
    `==`, which equates booleans with numbers and ints with equal
    floats. -/
theorem unify_equates_bool_and_float_eval :
    drain false 6 (unifyStart false 6 (.scalar (.int 0)) (.scalar (.bool false)) emptyStore)
        = some (1, emptyStore) ∧
    drain false 6 (unifyStart false 6 (.scalar (.int 1)) (.scalar (.float 1)) emptyStore)
        = some (1, emptyStore) :=
  ⟨rfl, rfl⟩

/-- C5: evaluating `not_unifiable(X, 5)` with `X` unbound: the probe
    `unify(X, 5)` succeeds, so `not_unifiable` exhausts with zero
    successes — but the store afterwards still has `X` bound to `5`.
    The `return` out of the probe loop closes the suspended `unify`
    generator, and with no `try`/`finally` its restore line never runs,
    so the probe's binding leaks, contrary to the claim. -/
theorem not_unifiable_leaks_bindings_eval :
    drain false 8 (goalStart false 8 (.not_unifiable (.var 0) (.scalar (.int 5))) emptyStore)
        = some (0, upd emptyStore 0 (some (.scalar (.int 5)))) ∧
    upd emptyStore 0 (some (.scalar (.int 5))) 0 = some (.scalar (.int 5)) :=
  ⟨rfl, rfl⟩

/-- C6: evaluating `ONCE(unify(X, 5))` in normal (non-commit) mode,
    consumed to exhaustion: after the single success the consumer's
    next request makes `ONCE` return, closing the inner generator
    without running its restore line, so `X` is left bound to `5` —
    the binding installed by `g` during the success is not undone,
    contrary to the claim. -/
theorem ONCE_leaks_bindings_eval :
    drain false 8 (goalStart false 8 (.ONCE (.unify (.var 0) (.scalar (.int 5)))) emptyStore)
        = some (1, upd emptyStore 0 (some (.scalar (.int 5)))) ∧
    upd emptyStore 0 (some (.scalar (.int 5))) 0 = some (.scalar (.int 5)) :=
  ⟨rfl, rfl⟩

/-- C3 counterexample: two ground terms (no Vars anywhere) for which
    `unify(a, b)` succeeds but `unify(b, a)` does not: the empty record
    pattern matches any record subject, while a record pattern with a
    key requires the subject to have that key.  This refutes symmetry
    of ground unification as claimed for records/dicts. -/
theorem record_unify_asymmetry_cex :
    drain false 6 (unifyStart false 6 (.dict []) (.dict [(.str "k", .scalar (.int 1))]) emptyStore)
        = some (1, emptyStore) ∧
    drain false 6 (unifyStart false 6 (.dict [(.str "k", .scalar (.int 1))]) (.dict []) emptyStore)
        = some (0, emptyStore) :=
  ⟨rfl, rfl⟩

/-- C9 counterexample: the name `get` is not among the snapshot
    variables, does not start with an underscore, and is not `vars` —
    so the claim asserts AttributeError and the default.  But Python's
    normal attribute lookup finds the class method `Solution.get`
    before `__getattr__` ever runs: `s.get` is the bound method (no
    AttributeError), and `s.get("get", default)` returns that bound
    method, not the supplied default. -/
theorem solution_get_method_cex :
    solLookup ⟨[("X", 1)]⟩ "get" = none ∧
    startsUnderscore "get" = false ∧
    ("get" : String) ≠ "vars" ∧
    solGetattr 5 [(1, .var 0)] emptyStore ⟨[("X", 1)]⟩ "get" = some .getMethod ∧
    solGet 5 [(1, .var 0)] emptyStore ⟨[("X", 1)]⟩ "get" (.scalar (.int 9))
        = some .getMethod :=
  ⟨rfl, rfl, by decide, rfl, rfl⟩

/-- C9 amended: attribute access on a Solution for a name that is not
    among the snapshot variables, is not underscore-prefixed, is not
    `vars`, and is not `get` (the one non-underscore class attribute,
    which normal lookup resolves to the bound method before
    `__getattr__` runs) raises AttributeError, while
    `get(name, default)` catches the AttributeError and returns the
    supplied default. -/
theorem solution_missing_name_attrError :
    ∀ (fuel : Nat) (heap : List (Nat × Term)) (st : Store) (sol : Solution)
      (name : String) (default : Term),
      solLookup sol name = none → startsUnderscore name = false → name ≠ "vars" →
      name ≠ "get" →
      solGetattr fuel heap st sol name = some .attrError ∧
      solGet fuel heap st sol name default = some (.val default) := by
  intro fuel heap st sol name default h1 h2 h3 h4
  have hga : solGetattr fuel heap st sol name = some .attrError := by
    unfold solGetattr
    rw [if_neg h3, if_neg h4, if_neg (by rw [h2]; exact Bool.false_ne_true), h1]
  refine ⟨hga, ?_⟩
  unfold solGet
  rw [hga]

/-- C9 witness: a Solution that snapshotted only `X`, queried at `Y`. -/
theorem solution_missing_name_attrError_witness :
    solGetattr 5 [(1, .var 0)] emptyStore ⟨[("X", 1)]⟩ "Y" = some .attrError ∧
    solGet 5 [(1, .var 0)] emptyStore ⟨[("X", 1)]⟩ "Y" (.scalar (.int 9))
        = some (.val (.scalar (.int 9))) :=
  solution_missing_name_attrError 5 [(1, .var 0)] emptyStore ⟨[("X", 1)]⟩ "Y"
    (.scalar (.int 9)) rfl rfl (by decide) (by decide)

/-- C10: `once` restores the thread-local commit flag to its previous
    value on every exit path: goal succeeded, goal exhausted, or an
    exception propagated out of forcing/first-`next` (the `finally`
    block, core.py 347-349). -/
theorem once_restores_flag :
    ∀ (prev : Bool) (fuel : Nat) (g : Goal) (s : Store)
      (res : (Option Bool) × Store × Bool),
      once prev fuel g s = some res → res.2.2 = prev := by
  intro prev fuel g s res h
  unfold once at h
  split at h
  · exact absurd h (by simp)
  all_goals (injection h with h'; rw [← h'])

/-- C10 witness: the exception exit path, via a goal that raises. -/
theorem once_restores_flag_witness :
    ((none, emptyStore, false) : (Option Bool) × Store × Bool).2.2 = false :=
  once_restores_flag false 3 .raiseExc emptyStore (none, emptyStore, false) rfl

/-- C8: `once(goal)` returns true iff the goal (run in commit mode)
    yields at least one success, and in that case the store `once`
    leaves behind is exactly the store at the moment of the first
    success: the success's bindings persist and every later `deref`
    reads the value observed within that success; subsequent queries
    start from this committed store. -/
theorem once_commit_persistence :
    ∀ (prev : Bool) (fuel : Nat) (g : Goal) (s : Store),
      ((∃ s' k, goalStart true fuel g s = .yld s' k) ↔
        (∃ s', once prev fuel g s = some (some true, s', prev))) ∧
      (∀ s' k, goalStart true fuel g s = .yld s' k →
        once prev fuel g s = some (some true, s', prev)) := by
  intro prev fuel g s
  constructor
  · constructor
    · rintro ⟨s', k, h⟩
      exact ⟨s', by unfold once; rw [h]⟩
    · rintro ⟨s', h⟩
      unfold once at h
      split at h
      · exact absurd h (by simp)
      next s2 k hg => exact ⟨s2, k, hg⟩
      next s2 hg => exact absurd h (by simp)
      next s2 hg => exact absurd h (by simp)
  · intro s' k h
    unfold once
    rw [h]

/-- C8 witness: committing `unify(X, 5)` leaves `X` bound to `5`. -/
theorem once_commit_persistence_witness :
    once false 9 (.unify (.var 0) (.scalar (.int 5))) emptyStore
        = some (some true, upd emptyStore 0 (some (.scalar (.int 5))), false) ∧
    upd emptyStore 0 (some (.scalar (.int 5))) 0 = some (.scalar (.int 5)) :=
  ⟨(once_commit_persistence false 9 (.unify (.var 0) (.scalar (.int 5))) emptyStore).2
      (upd emptyStore 0 (some (.scalar (.int 5)))) (.krestore 0 none) rfl,
   rfl⟩

/-- C7 counterexample: `run(succeed, X=X)` with `X` unbound at the
    success.  The produced Solution does not map `X` to a fresh unbound
    placeholder: at the success store, access returns the original Var
    itself, and after the original Var is later rebound to `7` the very
    same Solution reports `7` — it does not keep reflecting the
    bindings of the success at which it was produced. -/
theorem solution_snapshot_cex :
    runDrain false [("X", 0)] 6 (goalStart false 6 .succeed emptyStore) 1
        = some ([⟨[("X", 1)]⟩], [(1, .var 0)], emptyStore, 2) ∧
    solGetattr 5 [(1, .var 0)] emptyStore ⟨[("X", 1)]⟩ "X" = some (.val (.var 0)) ∧
    solGetattr 5 [(1, .var 0)] (upd emptyStore 0 (some (.scalar (.int 7)))) ⟨[("X", 1)]⟩ "X"
        = some (.val (.scalar (.int 7))) :=
  ⟨rfl, rfl, rfl⟩

/-- General characterization of the `run` snapshot step (core.py
    288-298): requesting names `[(n0,v0), (n1,v1), …]` with the global
    Var counter at `next` advances the counter by the number of
    requests, pairs the i-th requested name with the fresh Var id
    `next + i`, and binds that fresh id (in the snapshot heap) to the
    shallow dereference of the i-th requested Var at the success
    store. -/
theorem snapshot_spec :
    ∀ (names : List (String × Nat)) (fuel : Nat) (s : Store) (next : Nat)
      (sol : Solution) (heap : List (Nat × Term)) (next' : Nat),
      snapshot fuel names s next = some (sol, heap, next') →
      next' = next + names.length ∧
      sol.vars.length = names.length ∧
      ∀ (i : Nat) (hi : i < names.length) (hi2 : i < sol.vars.length),
        sol.vars.get ⟨i, hi2⟩ = ((names.get ⟨i, hi⟩).1, next + i) ∧
        heapLookup heap (next + i) = derefV fuel s (names.get ⟨i, hi⟩).2 := by
  intro names
  induction names with
  | nil =>
    intro fuel s next sol heap next' h
    have h2 : (some (⟨[]⟩, [], next) : Option (Solution × List (Nat × Term) × Nat))
        = some (sol, heap, next') := h
    injection h2 with h3
    have hsol : sol = ⟨[]⟩ := (congrArg Prod.fst h3).symm
    have hheap : heap = ([] : List (Nat × Term)) := (congrArg (fun p => p.2.1) h3).symm
    have hnext : next' = next := (congrArg (fun p => p.2.2) h3).symm
    subst hsol
    subst hheap
    subst hnext
    refine ⟨rfl, rfl, ?_⟩
    intro i hi hi2
    exact absurd hi (by simp)
  | cons p rest ih =>
    intro fuel s next sol heap next' h
    obtain ⟨nm, v⟩ := p
    have hred : snapshot fuel ((nm, v) :: rest) s next =
        (match derefV fuel s v with
         | none => none
         | some t =>
           match snapshot fuel rest s (next + 1) with
           | none => none
           | some (sol2, heap2, n2) =>
             some (⟨(nm, next) :: sol2.vars⟩, (next, t) :: heap2, n2)) := rfl
    rw [hred] at h
    cases hd : derefV fuel s v with
    | none => rw [hd] at h; exact Option.noConfusion h
    | some t =>
      rw [hd] at h
      have h' : (match snapshot fuel rest s (next + 1) with
                 | none => none
                 | some (sol2, heap2, n2) =>
                   some (⟨(nm, next) :: sol2.vars⟩, (next, t) :: heap2, n2)) =
          some (sol, heap, next') := h
      clear h
      cases hs : snapshot fuel rest s (next + 1) with
      | none => rw [hs] at h'; exact Option.noConfusion h'
      | some q =>
        obtain ⟨sol2, heap2, n2⟩ := q
        rw [hs] at h'
        injection h' with h3
        have hsol : sol = ⟨(nm, next) :: sol2.vars⟩ := (congrArg Prod.fst h3).symm
        have hheap : heap = (next, t) :: heap2 := (congrArg (fun p => p.2.1) h3).symm
        have hnext : next' = n2 := (congrArg (fun p => p.2.2) h3).symm
        subst hsol
        subst hheap
        subst hnext
        obtain ⟨ihn, ihlen, ihidx⟩ := ih fuel s (next + 1) sol2 heap2 next' hs
        refine ⟨?_, ?_, ?_⟩
        · rw [ihn]
          simp only [List.length_cons]
          omega
        · simp only [List.length_cons, ihlen]
        · intro i hi hi2
          cases i with
          | zero =>
            refine ⟨rfl, ?_⟩
            have hl : heapLookup ((next, t) :: heap2) (next + 0) = some t := by
              simp [heapLookup]
            rw [hl]
            show some t = derefV fuel s v
            rw [hd]
          | succ j =>
            have hj : j < rest.length := by
              simpa [List.length_cons] using hi
            have hj2 : j < sol2.vars.length := by rw [ihlen]; exact hj
            obtain ⟨hg, hh⟩ := ihidx j hj hj2
            constructor
            · have harith : next + 1 + j = next + (j + 1) := by omega
              rw [← harith]
              exact hg
            · have hl : heapLookup ((next, t) :: heap2) (next + (j + 1)) =
                  heapLookup heap2 (next + (j + 1)) := by
                show (if next + (j + 1) = next then some t
                      else heapLookup heap2 (next + (j + 1))) =
                  heapLookup heap2 (next + (j + 1))
                rw [if_neg (by omega)]
              rw [hl]
              have harith : next + (j + 1) = next + 1 + j := by omega
              rw [harith]
              exact hh

/-- C7 amended: `run` snapshots each requested name into a fresh Var
    (ids allocated consecutively from the global counter) bound to the
    shallow dereference of the requested Var at the moment of success.
    Attribute access on a requested name (other than the reserved
    attribute names `vars` and `get` and underscore-prefixed names,
    which Python's normal lookup resolves before `__getattr__` runs)
    re-dereferences that captured binding in the current store: when
    the captured value is a non-Var term the Solution returns exactly
    that term regardless of later store changes, while a Var still
    unbound at the success is captured as that Var itself (not a fresh
    unbound placeholder), and access then returns its dereference at
    access time, so later rebinding of the original Var shows
    through. -/
theorem solution_snapshot_amended :
    (∀ (fuel : Nat) (names : List (String × Nat)) (s : Store) (next : Nat)
        (sol : Solution) (heap : List (Nat × Term)) (next' : Nat),
        snapshot fuel names s next = some (sol, heap, next') →
        next' = next + names.length ∧
        sol.vars.length = names.length ∧
        ∀ (i : Nat) (hi : i < names.length) (hi2 : i < sol.vars.length),
          sol.vars.get ⟨i, hi2⟩ = ((names.get ⟨i, hi⟩).1, next + i) ∧
          heapLookup heap (next + i) = derefV fuel s (names.get ⟨i, hi⟩).2) ∧
    (∀ (fuel : Nat) (heap : List (Nat × Term)) (st : Store) (sol : Solution)
        (name : String) (w : Nat) (t : Term),
        startsUnderscore name = false → name ≠ "vars" → name ≠ "get" →
        solLookup sol name = some w → heapLookup heap w = some t →
        ((∀ x, t ≠ Term.var x) → solGetattr fuel heap st sol name = some (.val t)) ∧
        (∀ x, t = Term.var x →
          solGetattr fuel heap st sol name = (derefV fuel st x).map .val)) := by
  constructor
  · intro fuel names s next sol heap next' h
    exact snapshot_spec names fuel s next sol heap next' h
  · intro fuel heap st sol name w t h1 h2 h2g h3 h4
    have hbase : solGetattr fuel heap st sol name = snapshotValue fuel st t := by
      unfold solGetattr
      rw [if_neg h2, if_neg h2g, if_neg (by rw [h1]; exact Bool.false_ne_true), h3]
      show (match heapLookup heap w with
            | some t => snapshotValue fuel st t
            | none => some (.val (.var w))) = snapshotValue fuel st t
      rw [h4]
    constructor
    · intro hnv
      rw [hbase]
      rcases t with _ | x | _ | _ | _
      · rfl
      · exact absurd rfl (hnv x)
      · rfl
      · rfl
      · rfl
    · intro x hx
      subst hx
      rw [hbase]
      rfl

/-- C7 amended witness: a single request for `X` (bound to `5` at the
    success) is captured under the fresh id with value `5`, and the
    Solution reads back `5` from a later, different store. -/
theorem solution_snapshot_amended_witness :
    ((⟨[("X", 1)]⟩ : Solution).vars.get ⟨0, by decide⟩
        = (([("X", 0)].get ⟨0, by decide⟩).1, 1 + 0)) ∧
    heapLookup [(1, Term.scalar (.int 5))] (1 + 0)
        = derefV 5 (upd emptyStore 0 (some (.scalar (.int 5)))) 0 ∧
    solGetattr 5 [(1, .scalar (.int 5))] emptyStore ⟨[("X", 1)]⟩ "X"
        = some (.val (.scalar (.int 5))) :=
  ⟨((solution_snapshot_amended.1 5 [("X", 0)] (upd emptyStore 0 (some (.scalar (.int 5))))
        1 ⟨[("X", 1)]⟩ [(1, .scalar (.int 5))] 2 rfl).2.2 0 (by decide) (by decide)).1,
   ((solution_snapshot_amended.1 5 [("X", 0)] (upd emptyStore 0 (some (.scalar (.int 5))))
        1 ⟨[("X", 1)]⟩ [(1, .scalar (.int 5))] 2 rfl).2.2 0 (by decide) (by decide)).2,
   (solution_snapshot_amended.2 5 [(1, .scalar (.int 5))] emptyStore ⟨[("X", 1)]⟩ "X" 1
      (.scalar (.int 5)) rfl (by decide) (by decide) rfl rfl).1
      (fun x h => Term.noConfusion h)⟩

/-- Continuations of suspended `unify` / `unify_all` generators.  Such
    a continuation never yields another success when resumed. -/
inductive KZ : Kont → Prop where
  | kdone : KZ .kdone
  | krestore : ∀ v old, KZ (.krestore v old)
  | kseqU : ∀ ktail rest khead, KZ ktail → KZ khead → KZ (.kseqU ktail rest khead)

theorem loopU_oof (nb : Bool) (fuel : Nat) (rest : List (Term × Term)) :
    loopU nb fuel rest .oof = .oof := by
  cases fuel <;> rfl

theorem loopU_done (nb : Bool) (fuel : Nat) (rest : List (Term × Term)) (s : Store) :
    loopU nb fuel rest (.done s) = .oof ∨ loopU nb fuel rest (.done s) = .done s := by
  cases fuel
  · exact Or.inl rfl
  · exact Or.inr rfl

/-- Resuming a `KZ` continuation never yields: it either runs out of
    fuel or exhausts. -/
theorem KZ_resume_no_yield (nb : Bool) :
    ∀ (fuel : Nat) (k : Kont) (s : Store), KZ k →
      resumeK nb fuel k s = .oof ∨ ∃ s', resumeK nb fuel k s = .done s' := by
  intro fuel
  induction fuel with
  | zero => intro k s _; exact Or.inl rfl
  | succ f ih =>
    intro k s hk
    cases hk with
    | kdone => exact Or.inr ⟨s, rfl⟩
    | krestore v old => exact Or.inr ⟨_, rfl⟩
    | kseqU ktail rest khead hkt hkh =>
      have hred : resumeK nb (f + 1) (.kseqU ktail rest khead) s =
          (match resumeK nb f ktail s with
           | .oof => .oof
           | .exn s' => .exn s'
           | .yld s' k' => .yld s' (.kseqU k' rest khead)
           | .done s' => loopU nb f rest (resumeK nb f khead s')) := rfl
      rcases ih ktail s hkt with h | ⟨s1, h⟩
      · rw [hred, h]; exact Or.inl rfl
      · rw [hred, h]
        show loopU nb f rest (resumeK nb f khead s1) = .oof ∨
          ∃ s', loopU nb f rest (resumeK nb f khead s1) = .done s'
        rcases ih khead s1 hkh with h2 | ⟨s2, h2⟩
        · rw [h2, loopU_oof]; exact Or.inl rfl
        · rw [h2]
          rcases loopU_done nb f rest s2 with h3 | h3
          · rw [h3]; exact Or.inl rfl
          · rw [h3]; exact Or.inr ⟨s2, rfl⟩



/-- Every success yielded by `unify` / `unify_all` (at any fuel)
    suspends with a `KZ` continuation. -/
theorem KZ_production (nb : Bool) :
    ∀ fuel : Nat,
      (∀ a b s s' k, unifyStart nb fuel a b s = .yld s' k → KZ k) ∧
      (∀ a' b' s s' k, unifyDisp nb fuel a' b' s = .yld s' k → KZ k) ∧
      (∀ a' b' s s' k, unifyStructural nb fuel a' b' s = .yld s' k → KZ k) ∧
      (∀ ps s s' k, unifyAllStart nb fuel ps s = .yld s' k → KZ k) ∧
      (∀ rest r s' k, (∀ s2 k2, r = .yld s2 k2 → KZ k2) →
        loopU nb fuel rest r = .yld s' k → KZ k) := by
  intro fuel
  induction fuel with
  | zero =>
    refine ⟨?_, ?_, ?_, ?_, ?_⟩
    · intro a b s s' k h; exact GRes.noConfusion h
    · intro a' b' s s' k h; exact GRes.noConfusion h
    · intro a' b' s s' k h; exact GRes.noConfusion h
    · intro ps s s' k h; exact GRes.noConfusion h
    · intro rest r s' k _ h; exact GRes.noConfusion h
  | succ f ih =>
    obtain ⟨ih1, ihD, ihS, ih2, ih3⟩ := ih
    refine ⟨?_, ?_, ?_, ?_, ?_⟩
    · intro a b s s' k h
      unfold unifyStart at h
      repeat' split at h
      all_goals
        first
          | exact GRes.noConfusion h
          | exact ihD _ _ _ _ _ h
    · intro a' b' s s' k h
      unfold unifyDisp at h
      repeat' split at h
      all_goals
        first
          | exact GRes.noConfusion h
          | (injection h with h1 h2; subst h2; constructor)
          | exact ihS _ _ _ _ _ h
    · intro a' b' s s' k h
      unfold unifyStructural at h
      repeat' split at h
      all_goals
        first
          | exact GRes.noConfusion h
          | exact ih2 _ _ _ _ h
    · intro ps s s' k h
      unfold unifyAllStart at h
      split at h
      · injection h with h1 h2; subst h2; constructor
      · exact ih3 _ _ _ _ (fun s2 k2 hy => ih1 _ _ _ _ _ hy) h
    · intro rest r s' k hr h
      unfold loopU at h
      split at h
      · exact GRes.noConfusion h
      · exact GRes.noConfusion h
      · exact GRes.noConfusion h
      next s1 khead =>
        have hkh : KZ khead := hr _ _ rfl
        split at h
        · exact GRes.noConfusion h
        · exact GRes.noConfusion h
        next s2 ktail hall =>
          injection h with h1 h2
          subst h2
          exact KZ.kseqU _ _ _ (ih2 _ _ _ _ hall) hkh
        next s2 hdone =>
          refine ih3 _ _ _ _ ?_ h
          intro s3 k3 hy
          rcases KZ_resume_no_yield nb f khead s2 hkh with hz | ⟨s4, hz⟩ <;>
            rw [hz] at hy <;> exact GRes.noConfusion hy

theorem drain_no_yield (nb : Bool) (fuel : Nat) (r : GRes)
    (hr : r = .oof ∨ ∃ s, r = .done s) :
    drain nb fuel r = none ∨ ∃ s, drain nb fuel r = some (0, s) := by
  cases fuel
  · exact Or.inl rfl
  · rcases hr with h | ⟨s, h⟩ <;> subst h
    · exact Or.inl rfl
    · exact Or.inr ⟨s, rfl⟩

/-- C2: for every pair of terms and every store (any binding state,
    commit flag on or off), consuming `unify(a, b)` to exhaustion
    produces at most one success. -/
theorem unify_at_most_one_success :
    ∀ (nb : Bool) (f1 f2 : Nat) (a b : Term) (s : Store) (n : Nat) (s' : Store),
      drain nb f2 (unifyStart nb f1 a b s) = some (n, s') → n ≤ 1 := by
  intro nb f1 f2 a b s n s' h
  cases hres : unifyStart nb f1 a b s with
  | oof =>
    rw [hres] at h
    cases f2 <;> exact Option.noConfusion h
  | exn s1 =>
    rw [hres] at h
    cases f2 <;> exact Option.noConfusion h
  | done s1 =>
    rw [hres] at h
    cases f2 with
    | zero => exact Option.noConfusion h
    | succ f2' =>
      injection h with h'
      injection h' with h1 h2
      omega
  | yld s1 k =>
    rw [hres] at h
    have hkz : KZ k := (KZ_production nb f1).1 a b s s1 k hres
    cases f2 with
    | zero => exact Option.noConfusion h
    | succ f2' =>
      have hred : drain nb (f2' + 1) (.yld s1 k) =
          (match drain nb f2' (resumeK nb f2' k s1) with
           | some (m, s2) => some (m + 1, s2)
           | none => none) := rfl
      rw [hred] at h
      have hnr := KZ_resume_no_yield nb f2' k s1 hkz
      rcases drain_no_yield nb f2' (resumeK nb f2' k s1) hnr with hd | ⟨s2, hd⟩
      · rw [hd] at h
        exact Option.noConfusion h
      · rw [hd] at h
        injection h with h'
        injection h' with h1 h2
        omega

/-- C2 witness: `unify(X, 5)` from the empty store yields exactly one
    success and 1 ≤ 1. -/
theorem unify_at_most_one_success_witness :
    drain false 6 (unifyStart false 6 (.var 0) (.scalar (.int 5)) emptyStore)
        = some (1, upd (upd emptyStore 0 (some (.scalar (.int 5)))) 0 none) ∧ (1 : Nat) ≤ 1 :=
  ⟨rfl, unify_at_most_one_success false 6 6 (.var 0) (.scalar (.int 5)) emptyStore 1
      (upd (upd emptyStore 0 (some (.scalar (.int 5)))) 0 none) rfl⟩

/-- Goals built only from `unify`, `unify_all`, `AND`, `OR` (plus the
    trivial `succeed`/`fail`) — the builders named by the
    backtracking-cleanliness property.  `ONCE` and `not_unifiable` are
    excluded: they discard a suspended unifier without restoring. -/
inductive CoreGoal : Goal → Prop where
  | unify : ∀ a b, CoreGoal (.unify a b)
  | unify_all : ∀ ps, CoreGoal (.unify_all ps)
  | succeed : CoreGoal .succeed
  | fail : CoreGoal .fail
  | and : ∀ gs, (∀ g ∈ gs, CoreGoal g) → CoreGoal (.AND gs)
  | or : ∀ gs, (∀ g ∈ gs, CoreGoal g) → CoreGoal (.OR gs)

/-- Trail well-formedness of a suspended continuation in normal mode:
    `KWF s0 s k` says the generator now suspended as `k` was started at
    store `s0` and has just yielded at store `s`; resuming it to
    exhaustion at `s` restores the store to exactly `s0` (and every
    intermediate success preserves the invariant). -/
inductive KWF : Store → Store → Kont → Prop where
  | kdone : ∀ s, KWF s s .kdone
  | krestore : ∀ (s : Store) (v : Nat) (t : Term),
      KWF s (upd s v (some t)) (.krestore v (s v))
  | kseqU : ∀ (sbase smid scur : Store) ktail rest khead,
      KWF smid scur ktail → KWF sbase smid khead →
      KWF sbase scur (.kseqU ktail rest khead)
  | kseqA : ∀ (sbase smid scur : Store) ktail rest khead,
      (∀ g ∈ rest, CoreGoal g) →
      KWF smid scur ktail → KWF sbase smid khead →
      KWF sbase scur (.kseqA ktail rest khead)
  | korK : ∀ (sbase scur : Store) k rem,
      (∀ g ∈ rem, CoreGoal g) →
      KWF sbase scur k → KWF sbase scur (.korK k rem)

/-- The store-restoration invariant of a generator result, relative to
    the store `s0` the generator was started from: exhaustion lands
    exactly on `s0`, and a yield suspends with a KWF continuation. -/
def ResOK (s0 : Store) : GRes → Prop
  | .oof => True
  | .exn _ => True
  | .done s => s = s0
  | .yld s k => KWF s0 s k

theorem upd_restore (s : Store) (v : Nat) (x : Option Term) :
    upd (upd s v x) v (s v) = s := by
  funext w
  unfold upd
  split
  next h => rw [h]
  next h => rfl

/-- The trail discipline of normal-mode execution: every machine
    operation started at store `s0` (and every resumption of a KWF
    continuation) produces a result satisfying `ResOK s0`. -/
theorem exact_invariant :
    ∀ fuel : Nat,
      (∀ a b s, ResOK s (unifyStart false fuel a b s)) ∧
      (∀ a' b' s, ResOK s (unifyDisp false fuel a' b' s)) ∧
      (∀ a' b' s, ResOK s (unifyStructural false fuel a' b' s)) ∧
      (∀ ps s, ResOK s (unifyAllStart false fuel ps s)) ∧
      (∀ rest s0 r, ResOK s0 r → ResOK s0 (loopU false fuel rest r)) ∧
      (∀ g s, CoreGoal g → ResOK s (goalStart false fuel g s)) ∧
      (∀ gs s, (∀ g ∈ gs, CoreGoal g) → ResOK s (andStart false fuel gs s)) ∧
      (∀ rest s0 r, (∀ g ∈ rest, CoreGoal g) → ResOK s0 r →
        ResOK s0 (loopA false fuel rest r)) ∧
      (∀ gs s, (∀ g ∈ gs, CoreGoal g) → ResOK s (orStart false fuel gs s)) ∧
      (∀ rem s0 r, (∀ g ∈ rem, CoreGoal g) → ResOK s0 r →
        ResOK s0 (orStep false fuel rem r)) ∧
      (∀ k s0 s, KWF s0 s k → ResOK s0 (resumeK false fuel k s)) := by
  intro fuel
  induction fuel with
  | zero =>
    refine ⟨?_, ?_, ?_, ?_, ?_, ?_, ?_, ?_, ?_, ?_, ?_⟩ <;> intros <;> trivial
  | succ f ih =>
    obtain ⟨ih1, ihD, ihS, ih4, ih5, ih6, ih7, ih8, ih9, ih10, ih11⟩ := ih
    refine ⟨?_, ?_, ?_, ?_, ?_, ?_, ?_, ?_, ?_, ?_, ?_⟩
    -- unifyStart
    · intro a b s
      unfold unifyStart
      split
      · trivial
      · trivial
      · exact ihD _ _ _
    -- unifyDisp
    · intro a' b' s
      unfold unifyDisp
      split
      · exact KWF.kdone s
      · split
        · exact KWF.krestore s _ _
        · split
          · exact KWF.krestore s _ _
          · split
            · exact KWF.kdone s
            · exact ihS _ _ _
    -- unifyStructural
    · intro a' b' s
      unfold unifyStructural
      split
      · split
        · exact ih4 _ _
        · rfl
      · split
        · exact ih4 _ _
        · rfl
      · split
        · exact ih4 _ _
        · rfl
      · rfl
    -- unifyAllStart
    · intro ps s
      unfold unifyAllStart
      split
      · exact KWF.kdone s
      · exact ih5 _ s _ (ih1 _ _ s)
    -- loopU
    · intro rest s0 r hr
      cases r with
      | oof => trivial
      | exn s => trivial
      | done s => exact hr
      | yld s khead =>
        have hk : KWF s0 s khead := hr
        show ResOK s0
          (match unifyAllStart false f rest s with
           | .oof => .oof
           | .exn s' => .exn s'
           | .yld s' ktail => .yld s' (.kseqU ktail rest khead)
           | .done s' => loopU false f rest (resumeK false f khead s'))
        cases hres : unifyAllStart false f rest s with
        | oof => trivial
        | exn s' => trivial
        | yld s' ktail =>
          have h4 := ih4 rest s
          rw [hres] at h4
          exact KWF.kseqU s0 s s' ktail rest khead h4 hk
        | done s' =>
          have h4 := ih4 rest s
          rw [hres] at h4
          have hs : s' = s := h4
          subst hs
          exact ih5 rest s0 _ (ih11 khead s0 s' hk)
    -- goalStart
    · intro g s hg
      cases hg with
      | unify a b => exact ih1 a b s
      | unify_all ps => exact ih4 ps s
      | succeed => exact KWF.kdone s
      | fail => rfl
      | and gs hgs => exact ih7 gs s hgs
      | or gs hgs => exact ih9 gs s hgs
    -- andStart
    · intro gs s hgs
      unfold andStart
      cases gs with
      | nil => exact KWF.kdone s
      | cons g rest =>
        exact ih8 rest s _ (fun g' hg' => hgs g' (List.mem_cons_of_mem _ hg'))
          (ih6 g s (hgs g (List.mem_cons_self g rest)))
    -- loopA
    · intro rest s0 r hrest hr
      cases r with
      | oof => trivial
      | exn s => trivial
      | done s => exact hr
      | yld s khead =>
        have hk : KWF s0 s khead := hr
        show ResOK s0
          (match andStart false f rest s with
           | .oof => .oof
           | .exn s' => .exn s'
           | .yld s' ktail => .yld s' (.kseqA ktail rest khead)
           | .done s' => loopA false f rest (resumeK false f khead s'))
        cases hres : andStart false f rest s with
        | oof => trivial
        | exn s' => trivial
        | yld s' ktail =>
          have h7 := ih7 rest s hrest
          rw [hres] at h7
          exact KWF.kseqA s0 s s' ktail rest khead hrest h7 hk
        | done s' =>
          have h7 := ih7 rest s hrest
          rw [hres] at h7
          have hs : s' = s := h7
          subst hs
          exact ih8 rest s0 _ hrest (ih11 khead s0 s' hk)
    -- orStart
    · intro gs s hgs
      unfold orStart
      cases gs with
      | nil => rfl
      | cons g rest =>
        exact ih10 rest s _ (fun g' hg' => hgs g' (List.mem_cons_of_mem _ hg'))
          (ih6 g s (hgs g (List.mem_cons_self g rest)))
    -- orStep
    · intro rem s0 r hrem hr
      cases r with
      | oof => trivial
      | exn s => trivial
      | done s =>
        have hs : s = s0 := hr
        subst hs
        show ResOK s (orStart false f rem s)
        exact ih9 rem s hrem
      | yld s k =>
        show ResOK s0 (GRes.yld s (.korK k rem))
        exact KWF.korK s0 s k rem hrem hr
    -- resumeK
    · intro k s0 s hk
      cases hk with
      | kdone => rfl
      | krestore sb v t => exact upd_restore s0 v (some t)
      | kseqU sb smid sc ktail rest khead hkt hkh =>
        show ResOK s0
          (match resumeK false f ktail s with
           | .oof => .oof
           | .exn s' => .exn s'
           | .yld s' k' => .yld s' (.kseqU k' rest khead)
           | .done s' => loopU false f rest (resumeK false f khead s'))
        cases hres : resumeK false f ktail s with
        | oof => trivial
        | exn s' => trivial
        | yld s' k' =>
          have h := ih11 ktail smid s hkt
          rw [hres] at h
          exact KWF.kseqU s0 smid s' k' rest khead h hkh
        | done s' =>
          have h := ih11 ktail smid s hkt
          rw [hres] at h
          have hs : s' = smid := h
          subst hs
          exact ih5 rest s0 _ (ih11 khead s0 s' hkh)
      | kseqA sb smid sc ktail rest khead hrest hkt hkh =>
        show ResOK s0
          (match resumeK false f ktail s with
           | .oof => .oof
           | .exn s' => .exn s'
           | .yld s' k' => .yld s' (.kseqA k' rest khead)
           | .done s' => loopA false f rest (resumeK false f khead s'))
        cases hres : resumeK false f ktail s with
        | oof => trivial
        | exn s' => trivial
        | yld s' k' =>
          have h := ih11 ktail smid s hkt
          rw [hres] at h
          exact KWF.kseqA s0 smid s' k' rest khead hrest h hkh
        | done s' =>
          have h := ih11 ktail smid s hkt
          rw [hres] at h
          have hs : s' = smid := h
          subst hs
          exact ih8 rest s0 _ hrest (ih11 khead s0 s' hkh)
      | korK sb sc k' rem hrem hk' =>
        show ResOK s0
          (match resumeK false f k' s with
           | .oof => .oof
           | .exn s' => .exn s'
           | .done s' => orStart false f rem s'
           | .yld s' k'' => .yld s' (.korK k'' rem))
        cases hres : resumeK false f k' s with
        | oof => trivial
        | exn s' => trivial
        | done s' =>
          have h := ih11 k' s0 s hk'
          rw [hres] at h
          have hs : s' = s0 := h
          subst hs
          exact ih9 rem s' hrem
        | yld s' k'' =>
          have h := ih11 k' s0 s hk'
          rw [hres] at h
          exact KWF.korK s0 s' k'' rem hrem h



/-- Consuming a result satisfying the trail invariant to exhaustion
    lands exactly on the store the generator was started from. -/
theorem drain_restores :
    ∀ (fuel : Nat) (r : GRes) (s0 : Store) (n : Nat) (s' : Store),
      ResOK s0 r → drain false fuel r = some (n, s') → s' = s0 := by
  intro fuel
  induction fuel with
  | zero => intro r s0 n s' _ h; exact Option.noConfusion h
  | succ f ih =>
    intro r s0 n s' hr h
    cases r with
    | oof => exact Option.noConfusion h
    | exn s => exact Option.noConfusion h
    | done s =>
      injection h with h2
      injection h2 with ha hb
      rw [← hb]
      exact hr
    | yld s k =>
      have hk : KWF s0 s k := hr
      have hnext : ResOK s0 (resumeK false f k s) :=
        (exact_invariant f).2.2.2.2.2.2.2.2.2.2 k s0 s hk
      have hred : drain false (f + 1) (.yld s k) =
          (match drain false f (resumeK false f k s) with
           | some (m, s2) => some (m + 1, s2)
           | none => none) := rfl
      rw [hred] at h
      cases hd : drain false f (resumeK false f k s) with
      | none => rw [hd] at h; exact Option.noConfusion h
      | some p =>
        obtain ⟨m, s2⟩ := p
        rw [hd] at h
        injection h with h2
        injection h2 with ha hb
        rw [← hb]
        exact ih _ s0 m s2 hnext hd

/-- The same for the `run` driver: the snapshot step touches only the
    snapshot heap, so the goal's trail restores the store exactly. -/
theorem runDrain_restores :
    ∀ (fuel : Nat) (names : List (String × Nat)) (r : GRes) (s0 : Store) (next : Nat)
      (sols : List Solution) (heap : List (Nat × Term)) (s' : Store) (next' : Nat),
      ResOK s0 r → runDrain false names fuel r next = some (sols, heap, s', next') →
      s' = s0 := by
  intro fuel
  induction fuel with
  | zero => intro names r s0 next sols heap s' next' _ h; exact Option.noConfusion h
  | succ f ih =>
    intro names r s0 next sols heap s' next' hr h
    cases r with
    | oof => exact Option.noConfusion h
    | exn s => exact Option.noConfusion h
    | done s =>
      injection h with h2
      injection h2 with ha hrest
      injection hrest with hb hrest2
      injection hrest2 with hc hd
      rw [← hc]
      exact hr
    | yld s k =>
      have hk : KWF s0 s k := hr
      have hnext : ResOK s0 (resumeK false f k s) :=
        (exact_invariant f).2.2.2.2.2.2.2.2.2.2 k s0 s hk
      have hred : runDrain false names (f + 1) (.yld s k) next =
          (match snapshot (f + 1) names s next with
           | none => none
           | some (sol, heapx, next2) =>
             match runDrain false names f (resumeK false f k s) next2 with
             | none => none
             | some (sols2, heap2, s2, next3) =>
               some (sol :: sols2, heapx ++ heap2, s2, next3)) := rfl
      rw [hred] at h
      cases hsnap : snapshot (f + 1) names s next with
      | none => rw [hsnap] at h; exact Option.noConfusion h
      | some q =>
        obtain ⟨sol, heapx, next2⟩ := q
        rw [hsnap] at h
        have h2 : (match runDrain false names f (resumeK false f k s) next2 with
                   | none => none
                   | some (sols2, heap2, s2, next3) =>
                     some (sol :: sols2, heapx ++ heap2, s2, next3)) =
            some (sols, heap, s', next') := h
        clear h
        cases hrun : runDrain false names f (resumeK false f k s) next2 with
        | none => rw [hrun] at h2; exact Option.noConfusion h2
        | some p =>
          obtain ⟨sols2, heap2, s2, next3⟩ := p
          rw [hrun] at h2
          have h := h2
          injection h with h2
          injection h2 with ha hrest
          injection hrest with hb hrest2
          injection hrest2 with hc hd
          rw [← hc]
          exact ih names _ s0 next2 sols2 heap2 s2 next3 hnext hrun

/-- C1: backtracking cleanliness.  For every goal built from `unify`,
    `unify_all`, `AND`, `OR` (and `succeed`/`fail`) run in normal
    (non-commit) mode: fully consuming it to exhaustion — directly, or
    through the `run` driver with any requested variables — returns the
    binding store to exactly the state it had before the query started;
    in particular every Var unbound before is unbound after. -/
theorem backtracking_cleanliness :
    ∀ (fuel : Nat) (g : Goal) (s : Store), CoreGoal g →
      (∀ n s', drain false fuel (goalStart false fuel g s) = some (n, s') → s' = s) ∧
      (∀ names next sols heap s' next',
          runDrain false names fuel (goalStart false fuel g s) next
              = some (sols, heap, s', next') → s' = s) := by
  intro fuel g s hg
  have hres : ResOK s (goalStart false fuel g s) :=
    (exact_invariant fuel).2.2.2.2.2.1 g s hg
  exact ⟨fun n s' h => drain_restores fuel _ s n s' hres h,
         fun names next sols heap s' next' h =>
           runDrain_restores fuel names _ s next sols heap s' next' hres h⟩

/-- C1 witness: the spec's own example, `run(unify(X, 5), {X})`
    consumed to exhaustion — the one success is snapshotted and the
    final store equals the empty start store, so X is unbound again. -/
theorem backtracking_cleanliness_witness :
    runDrain false [("X", 0)] 12
        (goalStart false 12 (.unify (.var 0) (.scalar (.int 5))) emptyStore) 1
      = some ([⟨[("X", 1)]⟩], [(1, .scalar (.int 5))],
              upd (upd emptyStore 0 (some (.scalar (.int 5)))) 0 none, 2) ∧
    upd (upd emptyStore 0 (some (.scalar (.int 5)))) 0 none = emptyStore :=
  ⟨rfl,
   (backtracking_cleanliness 12 (.unify (.var 0) (.scalar (.int 5))) emptyStore
       (CoreGoal.unify _ _)).2 [("X", 0)] 1 [⟨[("X", 1)]⟩] [(1, .scalar (.int 5))]
       (upd (upd emptyStore 0 (some (.scalar (.int 5)))) 0 none) 2 rfl⟩

mutual
/-- Ground and record-free terms: no Vars and no dicts anywhere. -/
def gdf : Term → Bool
  | .scalar _ => true
  | .var _ => false
  | .dict _ => false
  | .list ts => gdfList ts
  | .tuple ts => gdfList ts

def gdfList : List Term → Bool
  | [] => true
  | t :: ts => gdf t && gdfList ts
end

theorem scalarEq_symm (x y : Scalar) : scalarEq x y = scalarEq y x := by
  unfold scalarEq
  cases x <;> cases y <;>
    simp [Scalar.num] <;>
    exact eq_comm

mutual
theorem pyEq_symm : ∀ (a b : Term), gdf a = true → gdf b = true →
    pyEq a b = pyEq b a
  | .var _, _, ha, _ => by simp [gdf] at ha
  | .dict _, _, ha, _ => by simp [gdf] at ha
  | .scalar _, .var _, _, hb => by simp [gdf] at hb
  | .scalar _, .dict _, _, hb => by simp [gdf] at hb
  | .list _, .var _, _, hb => by simp [gdf] at hb
  | .list _, .dict _, _, hb => by simp [gdf] at hb
  | .tuple _, .var _, _, hb => by simp [gdf] at hb
  | .tuple _, .dict _, _, hb => by simp [gdf] at hb
  | .scalar x, .scalar y, _, _ => scalarEq_symm x y
  | .scalar _, .list _, _, _ => rfl
  | .scalar _, .tuple _, _, _ => rfl
  | .list _, .scalar _, _, _ => rfl
  | .list as_, .list bs, ha, hb => pyEqList_symm as_ bs ha hb
  | .list _, .tuple _, _, _ => rfl
  | .tuple _, .scalar _, _, _ => rfl
  | .tuple _, .list _, _, _ => rfl
  | .tuple as_, .tuple bs, ha, hb => pyEqList_symm as_ bs ha hb

theorem pyEqList_symm : ∀ (as_ bs : List Term), gdfList as_ = true → gdfList bs = true →
    pyEqList as_ bs = pyEqList bs as_
  | [], [], _, _ => rfl
  | [], _ :: _, _, _ => rfl
  | _ :: _, [], _, _ => rfl
  | a :: as_, b :: bs, ha, hb => by
    have ha' : gdf a = true ∧ gdfList as_ = true := by
      simpa [gdfList, Bool.and_eq_true] using ha
    have hb' : gdf b = true ∧ gdfList bs = true := by
      simpa [gdfList, Bool.and_eq_true] using hb
    show (pyEq a b && pyEqList as_ bs) = (pyEq b a && pyEqList bs as_)
    rw [pyEq_symm a b ha'.1 hb'.1, pyEqList_symm as_ bs ha'.2 hb'.2]
end



/-- All pair components ground and record-free. -/
def gdfPairs (ps : List (Term × Term)) : Bool :=
  ps.all fun p => gdf p.1 && gdf p.2

/-- All pairs Python-equal. -/
def allPy (ps : List (Term × Term)) : Bool :=
  ps.all fun p => pyEq p.1 p.2

theorem derefT_nonvar (fuel : Nat) (s : Store) (a : Term) (ha : gdf a = true) :
    derefT fuel s a = some a := by
  cases a <;> first | rfl | simp [gdf] at ha

theorem isIdent_false_left (a b : Term) (ha : gdf a = true) : isIdent a b = false := by
  cases a <;> (try simp [gdf] at ha) <;> cases b <;> rfl

theorem gdfPairs_zip (as_ : List Term) :
    ∀ (bs : List Term), gdfList as_ = true → gdfList bs = true →
      gdfPairs (as_.zip bs) = true := by
  induction as_ with
  | nil => intro bs _ _; rfl
  | cons a rest ih =>
    intro bs ha hb
    cases bs with
    | nil => rfl
    | cons b bs' =>
      have ha' : gdf a = true ∧ gdfList rest = true := by
        simpa [gdfList, Bool.and_eq_true] using ha
      have hb' : gdf b = true ∧ gdfList bs' = true := by
        simpa [gdfList, Bool.and_eq_true] using hb
      show (gdf a && gdf b && gdfPairs (rest.zip bs')) = true
      rw [ha'.1, hb'.1, ih bs' ha'.2 hb'.2]
      rfl

theorem allPy_zip (as_ : List Term) :
    ∀ (bs : List Term), as_.length = bs.length →
      allPy (as_.zip bs) = pyEqList as_ bs := by
  induction as_ with
  | nil =>
    intro bs h
    cases bs with
    | nil => rfl
    | cons b bs' => simp at h
  | cons a rest ih =>
    intro bs h
    cases bs with
    | nil => simp at h
    | cons b bs' =>
      show (pyEq a b && allPy (rest.zip bs')) = (pyEq a b && pyEqList rest bs')
      rw [ih bs' (by simpa using h)]

/-- Continuations arising from ground unification: resuming one leaves
    the store untouched and exhausts. -/
inductive GK : Kont → Prop where
  | kdone : GK .kdone
  | kseqU : ∀ ktail rest khead, GK ktail → GK khead → GK (.kseqU ktail rest khead)

theorem GK_resume (nb : Bool) :
    ∀ (fuel : Nat) (k : Kont) (s : Store), GK k →
      resumeK nb fuel k s = .oof ∨ resumeK nb fuel k s = .done s := by
  intro fuel
  induction fuel with
  | zero => intro k s _; exact Or.inl rfl
  | succ f ih =>
    intro k s hk
    cases hk with
    | kdone => exact Or.inr rfl
    | kseqU ktail rest khead hkt hkh =>
      have hred : resumeK nb (f + 1) (.kseqU ktail rest khead) s =
          (match resumeK nb f ktail s with
           | .oof => .oof
           | .exn s' => .exn s'
           | .yld s' k' => .yld s' (.kseqU k' rest khead)
           | .done s' => loopU nb f rest (resumeK nb f khead s')) := rfl
      rcases ih ktail s hkt with h | h
      · rw [hred, h]; exact Or.inl rfl
      · rw [hred, h]
        show loopU nb f rest (resumeK nb f khead s) = .oof ∨
          loopU nb f rest (resumeK nb f khead s) = .done s
        rcases ih khead s hkh with h2 | h2
        · rw [h2, loopU_oof]; exact Or.inl rfl
        · rw [h2]
          rcases loopU_done nb f rest s with h3 | h3
          · rw [h3]; exact Or.inl rfl
          · rw [h3]; exact Or.inr rfl

/-- Invariant of ground record-free unification: the store is never
    changed, suspended continuations are `GK`, and a success is yielded
    only when the two sides are Python-equal. -/
def GY (s : Store) (ok : Bool) : GRes → Prop
  | .oof => True
  | .exn _ => True
  | .done s' => s' = s
  | .yld s' k => s' = s ∧ GK k ∧ ok = true

theorem unifyDisp_nonvar (nb : Bool) (f : Nat) (a b : Term) (s : Store)
    (ha : gdf a = true) (hb : gdf b = true) :
    unifyDisp nb (f + 1) a b s =
      (if pyEq a b then .yld s .kdone else unifyStructural nb f a b s) := by
  cases a <;> (try simp [gdf] at ha) <;> cases b <;> (try simp [gdf] at hb) <;> rfl

theorem ground_invariant (nb : Bool) :
    ∀ fuel : Nat,
      (∀ a b s, gdf a = true → gdf b = true →
        GY s (pyEq a b) (unifyStart nb fuel a b s)) ∧
      (∀ a b s, gdf a = true → gdf b = true →
        GY s (pyEq a b) (unifyDisp nb fuel a b s)) ∧
      (∀ a b s, gdf a = true → gdf b = true →
        GY s (pyEq a b) (unifyStructural nb fuel a b s)) ∧
      (∀ ps s, gdfPairs ps = true → GY s (allPy ps) (unifyAllStart nb fuel ps s)) ∧
      (∀ rest r s ok, gdfPairs rest = true → GY s ok r →
        GY s (ok && allPy rest) (loopU nb fuel rest r)) := by
  intro fuel
  induction fuel with
  | zero => refine ⟨?_, ?_, ?_, ?_, ?_⟩ <;> intros <;> trivial
  | succ f ih =>
    obtain ⟨ih1, ihD, ihS, ih4, ih5⟩ := ih
    refine ⟨?_, ?_, ?_, ?_, ?_⟩
    · intro a b s ha hb
      show GY s (pyEq a b)
        (match derefT f s a, derefT f s b with
         | none, _ => .oof
         | some _, none => .oof
         | some a', some b' => unifyDisp nb f a' b' s)
      rw [derefT_nonvar f s a ha, derefT_nonvar f s b hb]
      exact ihD a b s ha hb
    · intro a b s ha hb
      rw [unifyDisp_nonvar nb f a b s ha hb]
      by_cases hp : pyEq a b = true
      · rw [if_pos hp]
        exact ⟨rfl, GK.kdone, hp⟩
      · rw [if_neg hp]
        exact ihS a b s ha hb
    · intro a b s ha hb
      cases a <;> (try simp [gdf] at ha) <;> cases b <;> (try simp [gdf] at hb)
      case scalar.scalar => exact rfl
      case scalar.list => exact rfl
      case scalar.tuple => exact rfl
      case list.scalar => exact rfl
      case tuple.scalar => exact rfl
      case list.tuple => exact rfl
      case tuple.list => exact rfl
      case list.list as_ bs =>
        show GY s (pyEq (.list as_) (.list bs))
          (if as_.length = bs.length then unifyAllStart nb f (as_.zip bs) s else .done s)
        by_cases hl : as_.length = bs.length
        · rw [if_pos hl]
          have h4 := ih4 (as_.zip bs) s (gdfPairs_zip as_ bs ha hb)
          rw [allPy_zip as_ bs hl] at h4
          exact h4
        · rw [if_neg hl]
          exact rfl
      case tuple.tuple as_ bs =>
        show GY s (pyEq (.tuple as_) (.tuple bs))
          (if as_.length = bs.length then unifyAllStart nb f (as_.zip bs) s else .done s)
        by_cases hl : as_.length = bs.length
        · rw [if_pos hl]
          have h4 := ih4 (as_.zip bs) s (gdfPairs_zip as_ bs ha hb)
          rw [allPy_zip as_ bs hl] at h4
          exact h4
        · rw [if_neg hl]
          exact rfl
    · intro ps s hps
      cases ps with
      | nil => exact ⟨rfl, GK.kdone, rfl⟩
      | cons p rest =>
        obtain ⟨a, b⟩ := p
        simp only [gdfPairs, List.all_cons, Bool.and_eq_true] at hps
        obtain ⟨⟨ha, hb⟩, hrest2⟩ := hps
        exact ih5 rest (unifyStart nb f a b s) s (pyEq a b) hrest2 (ih1 a b s ha hb)
    · intro rest r s ok hrest hr
      cases r with
      | oof => trivial
      | exn s' => trivial
      | done s' => exact hr
      | yld s' khead =>
        obtain ⟨hs, hgk, hok⟩ := hr
        rw [hs]
        show GY s (ok && allPy rest)
          (match unifyAllStart nb f rest s with
           | .oof => .oof
           | .exn s2 => .exn s2
           | .yld s2 ktail => .yld s2 (.kseqU ktail rest khead)
           | .done s2 => loopU nb f rest (resumeK nb f khead s2))
        have h4 := ih4 rest s hrest
        cases hres : unifyAllStart nb f rest s with
        | oof => trivial
        | exn s2 => trivial
        | yld s2 ktail =>
          rw [hres] at h4
          obtain ⟨hs2, hgk2, hok2⟩ := h4
          subst hs2
          exact ⟨rfl, GK.kseqU _ _ _ hgk2 hgk, by rw [hok, hok2]; rfl⟩
        | done s2 =>
          rw [hres] at h4
          have hs2 : s2 = s := h4
          rw [hs2]
          show GY s (ok && allPy rest) (loopU nb f rest (resumeK nb f khead s))
          rcases GK_resume nb f khead s hgk with hz | hz
          · rw [hz, loopU_oof]; trivial
          · rw [hz]
            rcases loopU_done nb f rest s with hd | hd
            · rw [hd]; trivial
            · rw [hd]; exact rfl

/-- For ground record-free terms, `unify(a, b)` yields a success (at
    some sufficient fuel) exactly when the two sides are Python-equal. -/
theorem ground_unify_success_iff (nb : Bool) (a b : Term) (s : Store)
    (ha : gdf a = true) (hb : gdf b = true) :
    (∃ f s' k, unifyStart nb f a b s = .yld s' k) ↔ pyEq a b = true := by
  constructor
  · rintro ⟨f, s', k, h⟩
    have hinv := (ground_invariant nb f).1 a b s ha hb
    rw [h] at hinv
    exact hinv.2.2
  · intro hp
    have h1 : unifyStart nb 2 a b s = unifyDisp nb 1 a b s := by
      show (match derefT 1 s a, derefT 1 s b with
            | none, _ => .oof
            | some _, none => .oof
            | some a', some b' => unifyDisp nb 1 a' b' s) = unifyDisp nb 1 a b s
      rw [derefT_nonvar 1 s a ha, derefT_nonvar 1 s b hb]
    exact ⟨2, s, .kdone, by rw [h1, unifyDisp_nonvar nb 0 a b s ha hb, if_pos hp]⟩

/-- C3 amended: for all terms containing no Vars and no records/dicts,
    `unify(a, b)` yields a success iff `unify(b, a)` does (from any
    store; ground unification never reads or writes bindings).  With
    records the equivalence fails (see the counterexample): record
    unification requires only the keys of the left pattern to appear in
    the right subject. -/
theorem ground_symmetry_no_dicts :
    ∀ (a b : Term) (s : Store), gdf a = true → gdf b = true →
      ((∃ f s' k, unifyStart false f a b s = .yld s' k) ↔
       (∃ f s' k, unifyStart false f b a s = .yld s' k)) := by
  intro a b s ha hb
  rw [ground_unify_success_iff false a b s ha hb,
      ground_unify_success_iff false b a s hb ha,
      pyEq_symm a b ha hb]

/-- C3 amended witness: `1` and `1.0` unify symmetrically. -/
theorem ground_symmetry_no_dicts_witness :
    (∃ f s' k, unifyStart false f (.scalar (.int 1)) (.scalar (.float 1)) emptyStore
        = .yld s' k) ↔
    (∃ f s' k, unifyStart false f (.scalar (.float 1)) (.scalar (.int 1)) emptyStore
        = .yld s' k) :=
  ground_symmetry_no_dicts (.scalar (.int 1)) (.scalar (.float 1)) emptyStore rfl rfl

end PyUnify
